import Mathlib

/-!
Shallow embedding of `src/datastore/sync_methods/defineResource.js` from the
angular-data repository, together with the auxiliary store operations its
claims reference.  JavaScript values are modelled by the small inductive
`JSVal`; JavaScript objects whose key set matters are modelled by association
lists over `String`; fallible code returns `Except DSError`.
-/

namespace AngularData

/-- A JavaScript value, restricted to the shapes `defineResource` inspects:
strings, numbers, booleans, functions (represented by their source text, which
is what `Function.prototype.toString` yields), and `undefined` (also standing
in for `null`). -/
inductive JSVal where
  | str (s : String)
  | num (n : Int)
  | boolV (b : Bool)
  | func (src : String)
  | undef
deriving DecidableEq, Repr

/-- JavaScript truthiness of a `JSVal`. -/
def truthy : JSVal → Bool
  | .str s => s ≠ ""
  | .num n => n ≠ 0
  | .boolV b => b
  | .func _ => true
  | .undef => false

/-- `DS.utils.isString`. -/
def isString : JSVal → Bool
  | .str _ => true
  | _ => false

/-- `DS.utils.isNumber`. -/
def isNumber : JSVal → Bool
  | .num _ => true
  | _ => false

/-- `DS.utils.isFunction` / `angular.isFunction`. -/
def isFunction : JSVal → Bool
  | .func _ => true
  | _ => false

/-- JavaScript string coercion of a `JSVal` (`String(v)` / `v.toString()`);
a function stringifies to its source text. -/
def jsToString : JSVal → String
  | .str s => s
  | .num n => toString n
  | .boolV b => cond b "true" "false"
  | .func src => src
  | .undef => "undefined"

/-- JavaScript `a || b`. -/
def jsOr (a b : JSVal) : JSVal := if truthy a then a else b

/-- JavaScript `a || b` where `a` is a possibly-absent property
(absent reads as `undefined`). -/
def jsOrD (a : Option JSVal) (b : JSVal) : JSVal := jsOr (a.getD .undef) b

/-- Property lookup in a JavaScript object modelled as an association list:
`o[key]`, `none` when the key is absent. -/
def lookupA {α : Type} : List (String × α) → String → Option α
  | [], _ => none
  | (k, v) :: rest, key => if k = key then some v else lookupA rest key

/-- Property removal: `delete o[key]`. -/
def eraseKeyA {α : Type} : List (String × α) → String → List (String × α)
  | [], _ => []
  | (k, v) :: rest, key =>
      if k = key then eraseKeyA rest key else (k, v) :: eraseKeyA rest key

/-- Property assignment: `o[key] = v` (replaces in place, appends when new). -/
def putA {α : Type} : List (String × α) → String → α → List (String × α)
  | [], key, v => [(key, v)]
  | (k, w) :: rest, key, v =>
      if k = key then (key, v) :: rest else (k, w) :: putA rest key v

/-- An entity record: a mapping of field name to value. -/
abbrev EntityRecord := List (String × JSVal)

/-- The record contents of the Entity Stores, keyed first by resource name and
then by primary key, as seen by `DS.get` / `DS.eject`. -/
abbrev EntityStore := List (String × List (String × EntityRecord))

/-- Modelled from the spec: `DS.get(resourceName, key)` returns the current
record or nothing, via the per-resource index (the function itself is not in
`src/`, only its caller `defineResource` is). -/
def DSget (st : EntityStore) (name key : String) : Option EntityRecord :=
  (lookupA st name).bind fun col => lookupA col key

/-- Modelled from the spec: `DS.eject(resourceName, key)` removes the record
with that key from the resource's Entity Store and returns the removed record,
or nothing if absent (the function itself is not in `src/`). -/
def DSeject (st : EntityStore) (name key : String) :
    EntityStore × Option EntityRecord :=
  match lookupA st name with
  | none => (st, none)
  | some col => (putA st name (eraseKeyA col key), lookupA col key)

/-- One `belongsTo` relation declaration: only the fields `defineResource`
reads (`relation.parent`, `relation.localKey`). -/
structure RelationDecl where
  parent : JSVal := .undef
  localKey : Option String := none
deriving DecidableEq, Repr

/-- The value under one key of `relations.belongsTo`: either a single relation
object or an array of them (the source wraps a non-array in an array). -/
inductive BelongsToDecl where
  | single (r : RelationDecl)
  | many (rs : List RelationDecl)
deriving DecidableEq, Repr

/-- The `relations` option of a definition; only `belongsTo` is read by
`defineResource`. -/
structure Relations where
  belongsTo : Option (List (String × BelongsToDecl)) := none
deriving DecidableEq, Repr

/-- A computed-field declaration as supplied by the caller: a bare function
(source text) or an array of values (dependency names followed by the
function, in well-formed inputs). -/
inductive ComputedDecl where
  | fn (src : String)
  | arr (elems : List JSVal)
deriving DecidableEq, Repr

/-- A computed-field entry after registration: the entry array
(`def.computed[field]`) plus the `deps` property the source attaches to it. -/
structure ComputedEntry where
  elems : List JSVal
  deps : List String
deriving DecidableEq, Repr

/-- The structured definition input (`definition` after the string case is
normalized): the properties `defineResource` reads.  `Option` fields model
key presence (`none` = key absent = reads as `undefined`). -/
structure DefObj where
  name : JSVal := .undef
  idAttribute : Option JSVal := none
  endpoint : Option JSVal := none
  relations : Option Relations := none
  computed : Option (List (String × ComputedDecl)) := none
  filter : Option JSVal := none
  defaultFilter : Option JSVal := none
  onExpire : Option JSVal := none
  maxAge : Option JSVal := none
  recycleFreq : Option JSVal := none
  cacheFlushInterval : Option JSVal := none
  deleteOnExpire : Option JSVal := none
deriving DecidableEq, Repr

/-- The argument of `DS.defineResource`: a string, an object, or anything
else (which fails the `isObject` check). -/
inductive DefInput where
  | str (s : String)
  | obj (o : DefObj)
  | other
deriving DecidableEq, Repr

/-- A registered resource definition (the `Resource` instance after all of
`defineResource`'s setup). -/
structure Resource where
  name : String
  idAttribute : JSVal := .undef
  endpoint : JSVal := .undef
  parent : Option String := none
  parentKey : Option String := none
  defaultFilter : Option JSVal := none
  computed : Option (List (String × ComputedEntry)) := none
  onExpire : Option JSVal := none
  cls : String := ""
deriving DecidableEq, Repr

/-- The configuration record passed to `DS.cacheFactory` (lines 188-204 of the
source), minus the `onExpire` closure, which is modelled separately by
`cacheOnExpire`. -/
structure CacheConfig where
  maxAge : JSVal
  recycleFreq : JSVal
  cacheFlushInterval : JSVal
  deleteOnExpire : JSVal
  storageMode : String
  storagePrefix : String
deriving DecidableEq, Repr

/-- The store entry initialized for a new resource (line 251 of the source);
the `index` field holds the id of the resource's cache. -/
structure StoreEntry where
  collection : List EntityRecord := []
  completedQueries : List (String × JSVal) := []
  pendingQueries : List (String × JSVal) := []
  index : String := ""
  modified : List (String × JSVal) := []
  saved : List (String × JSVal) := []
  previousAttributes : List (String × JSVal) := []
  observers : List (String × JSVal) := []
  collectionModified : Nat := 0
deriving DecidableEq, Repr

/-- The global defaults object (`DS.defaults`), installed as the prototype of
every `Resource`; only `idAttribute` is relevant to the claims.  Its value in
the running system is modelled from the spec (idAttribute defaults to "id"). -/
structure DSDefaults where
  idAttribute : JSVal := .str "id"
deriving DecidableEq, Repr

/-- The slice of datastore state touched by `defineResource`: the definition
map, the per-resource store map, and the registry of caches created through
`DS.cacheFactory`. -/
structure DSState where
  defaults : DSDefaults := {}
  definitions : List (String × Resource) := []
  store : List (String × StoreEntry) := []
  caches : List (String × CacheConfig) := []
deriving DecidableEq, Repr

/-- A possible error raised by the embedded code: the source's
`IllegalArgumentError` (`DS.errors.IA`), `RuntimeError` (`DS.errors.R`), a
JavaScript `TypeError` raised by an illegal member access, the `SyntaxError`
raised by the class `eval` when the pascal-cased name is not a valid
identifier, and the stack exhaustion of unbounded recursion (used when the
recursion fuel runs out). -/
inductive DSError where
  | IA (msg : String)
  | R (msg : String)
  | typeError
  | syntaxError
  | stackOverflow
deriving DecidableEq, Repr

/-- The `errorPrefix` constant of the source file. -/
def errorPfx : String := "DS.defineResource(definition): "

/-- `definition.replace(/\s/gi, '')`: strip all whitespace from a string
name. -/
def stripWhitespace (s : String) : String :=
  String.mk (s.data.filter (fun c => !c.isWhitespace))

/-- mout's `removeNonWord` step of `camelCase`: keep only alphanumerics,
spaces, hyphens and underscores (the accent transliteration that precedes it
is omitted: accented characters are dropped rather than transliterated; no
claim uses non-ASCII names). -/
def removeNonWord (cs : List Char) : List Char :=
  cs.filter (fun c => c.isAlphanum || c = ' ' || c = '-' || c = '_')

/-- mout `camelCase`: convert all hyphens and underscores to spaces. -/
def dashesToSpaces (cs : List Char) : List Char :=
  cs.map (fun c => if c = '-' || c = '_' then ' ' else c)

/-- mout `camelCase`: the global replacement of a space followed by a
lowercase letter with the space and the uppercased letter
(non-overlapping, left to right). -/
def upperAfterSpace : List Char → List Char
  | [] => []
  | c :: rest =>
      if c = ' ' then
        match rest with
        | [] => [' ']
        | d :: rest2 =>
            if d.isLower then ' ' :: d.toUpper :: upperAfterSpace rest2
            else ' ' :: upperAfterSpace (d :: rest2)
      else c :: upperAfterSpace rest

/-- mout `camelCase`: remove all spaces. -/
def removeSpaces (cs : List Char) : List Char := cs.filter (fun c => c ≠ ' ')

/-- The net effect on the first character of `camelCase`'s final
lowercase-first step followed by `pascalCase`'s uppercase-first step:
a leading letter is uppercased, anything else is left alone. -/
def upperFirst : List Char → List Char
  | [] => []
  | c :: rest => (if c.isLower then c.toUpper else c) :: rest

/-- Modelled from the spec/mout: `DS.utils.pascalCase` (external utility, not
in `src/`): strip non-word characters, camel-case at hyphen/underscore/space
word boundaries, and uppercase the first letter. -/
def pascalCase (s : String) : String :=
  String.mk
    (upperFirst (removeSpaces (upperAfterSpace (dashesToSpaces
      (removeNonWord s.data)))))

/-- Whether `eval('function ' + cls + '() {}')` (line 208) parses.  A
pascal-cased name consists of alphanumerics only, so it is a valid (never
reserved) identifier exactly when it is non-empty and does not start with a
digit; otherwise the eval raises a `SyntaxError`. -/
def validClassName (cls : String) : Bool :=
  match cls.data with
  | [] => false
  | c :: _ => !c.isDigit

/-- Modelled from the spec: `DS.utils.makePath` (external mout utility) joins
path segments with a slash. -/
def makePath (xs : List JSVal) : String :=
  match xs with
  | [] => ""
  | [x] => jsToString x
  | x :: rest => jsToString x ++ "/" ++ makePath rest

/-- The suffix of `hay` strictly after the first occurrence of `needle`, or
`none` when `needle` does not occur. -/
def subSuffix (needle : List Char) : List Char → Option (List Char)
  | [] => if needle = [] then some [] else none
  | c :: rest =>
      if needle.isPrefixOf (c :: rest) then some ((c :: rest).drop needle.length)
      else subSuffix needle rest

/-- The capture group of `str.match(/function.*?\(([\s\S]*?)\)/)`: the text
between the first `(` after the first occurrence of `function` and the next
`)`, or `none` when the regex does not match. -/
def jsFnCapture (s : String) : Option String :=
  match subSuffix "function".toList s.toList with
  | none => none
  | some rest =>
      match rest.dropWhile (fun c => c ≠ '(') with
      | [] => none
      | _ :: afterParen =>
          if afterParen.contains ')' then
            some (String.mk (afterParen.takeWhile (fun c => c ≠ ')')))
          else none

/-- Character-level splitting on commas, the recursion behind
`jsSplitComma`. -/
def splitCommaChars : List Char → List String
  | [] => [""]
  | c :: rest =>
      if c = ',' then "" :: splitCommaChars rest
      else
        match splitCommaChars rest with
        | [] => [String.mk [c]]
        | t :: ts => String.mk (c :: t.data) :: ts

/-- JavaScript `str.split(',')`: the empty string yields `[""]`. -/
def jsSplitComma (s : String) : List String := splitCommaChars s.data

/-- JavaScript `String.prototype.trim`: strip leading and trailing
whitespace. -/
def jsTrim (s : String) : String :=
  String.mk (((s.data.dropWhile Char.isWhitespace).reverse.dropWhile
    Char.isWhitespace).reverse)

/-- `val.trim()` on a dependency entry: succeeds only on strings, any other
value lacks a `trim` method and raises a `TypeError`. -/
def trimDep : JSVal → Except DSError String
  | .str s => .ok (jsTrim s)
  | _ => .error .typeError

/-- The in-place trimming loop over the dependency entries (lines 237-239):
each is trimmed in order, the first non-string aborts with a `TypeError`. -/
def trimAll : List JSVal → Except DSError (List String)
  | [] => .ok []
  | v :: rest =>
      match trimDep v with
      | .error e => .error e
      | .ok t =>
          match trimAll rest with
          | .error e => .error e
          | .ok ts => .ok (t :: ts)

/-- The body of the computed-properties loop (lines 218-243 of the source)
applied to one entry array `es` (a bare function `f` arrives here as `[f]`):
when the array has exactly one element, dependency names are recovered from
that element's string form (`match[1].split(',')`, a `TypeError` when the
regex fails) and prepended; then the dependencies (all elements but the last)
are trimmed and the non-empty ones are stored on the `deps` property. -/
def processElems (es : List JSVal) : Except DSError ComputedEntry :=
  match es with
  | [v] =>
      match jsFnCapture (jsToString v) with
      | none => .error .typeError
      | some cap =>
          let es1 := (jsSplitComma cap).map JSVal.str ++ [v]
          match trimAll es1.dropLast with
          | .error e => .error e
          | .ok ts => .ok { elems := es1, deps := ts.filter (fun d => d ≠ "") }
  | _ =>
      match trimAll es.dropLast with
      | .error e => .error e
      | .ok ts => .ok { elems := es, deps := ts.filter (fun d => d ≠ "") }

/-- Processing of one computed-field declaration: a bare function is first
wrapped in a one-element array (line 220). -/
def processComputedField : ComputedDecl → Except DSError ComputedEntry
  | .fn src => processElems [.func src]
  | .arr es => processElems es

/-- Processing of the computed fields in declaration order; the first failure
aborts. -/
def processComputedList :
    List (String × ComputedDecl) → Except DSError (List (String × ComputedEntry))
  | [] => .ok []
  | (f, d) :: rest =>
      match processComputedField d with
      | .error e => .error e
      | .ok entry =>
          match processComputedList rest with
          | .error e => .error e
          | .ok es => .ok ((f, entry) :: es)

/-- Processing of the whole `computed` option, when present. -/
def processComputed :
    Option (List (String × ComputedDecl)) →
    Except DSError (Option (List (String × ComputedEntry)))
  | none => .ok none
  | some l => (processComputedList l).map some

/-- The source wraps a non-array `belongsTo` value in a one-element array
(lines 138-140). -/
def toRelArray : BelongsToDecl → List RelationDecl
  | .single r => [r]
  | .many rs => rs

/-- The nested-parent setup (lines 136-148): iterate over
`relations.belongsTo`; every relation whose `parent` flag is truthy
overwrites `def.parent` with its model name and `def.parentKey` with its
`localKey`. -/
def resolveParent (rels : Option Relations) : Option String × Option String :=
  match rels with
  | none => (none, none)
  | some r =>
      match r.belongsTo with
      | none => (none, none)
      | some bt =>
          bt.foldl
            (fun acc p =>
              (toRelArray p.2).foldl
                (fun acc2 rel =>
                  if truthy rel.parent then (some p.1, rel.localKey) else acc2)
                acc)
            (none, none)

/-- The relations of the `belongsTo` map that carry a truthy `parent` flag, in
processing order, paired with their `localKey`. -/
def parentFlags (bt : List (String × BelongsToDecl)) :
    List (String × Option String) :=
  bt.flatMap fun p =>
    (toRelArray p.2).filterMap fun r =>
      if truthy r.parent then some (p.1, r.localKey) else none

/-- The `Resource` constructor (lines 4-13) with `DS.defaults` as prototype,
followed by the in-place setup performed before the computed-properties step:
parent resolution (lines 136-148), the `filter` to `defaultFilter` rename
(lines 182-185), and the wrapper-class name (line 207). -/
def mkResource (defaults : DSDefaults) (o : DefObj) (nm : String) : Resource :=
  let pk := resolveParent o.relations
  { name := nm
    idAttribute := o.idAttribute.getD defaults.idAttribute
    endpoint := match o.endpoint with
                | some v => v
                | none => .str nm
    parent := pk.1
    parentKey := pk.2
    defaultFilter := if truthy (o.filter.getD .undef) then o.filter
                     else o.defaultFilter
    computed := none
    onExpire := o.onExpire
    cls := pascalCase nm }

/-- The cache configuration built for `DS.cacheFactory('DS.' + def.name, ...)`
(lines 188-204). -/
def mkCacheConfig (o : DefObj) (nm : String) : CacheConfig :=
  { maxAge := jsOrD o.maxAge .undef
    recycleFreq := jsOrD o.recycleFreq (.num 1000)
    cacheFlushInterval := jsOrD o.cacheFlushInterval .undef
    deleteOnExpire := jsOrD o.deleteOnExpire (.str "none")
    storageMode := "memory"
    storagePrefix := "DS." ++ nm }

/-- The truthy-but-not-a-string test on `definition.idAttribute`
(line 120). -/
def badIdAttribute (o : DefObj) : Bool :=
  match o.idAttribute with
  | some v => truthy v && !isString v
  | none => false

/-- The truthy-but-not-a-string test on `definition.endpoint` (line 122). -/
def badEndpoint (o : DefObj) : Bool :=
  match o.endpoint with
  | some v => truthy v && !isString v
  | none => false

/-- `defineResource` on an object input: the validation chain (lines 116-126)
followed by the `try` block (lines 128-286): resource construction and
in-place setup, the cache creation (line 188), the wrapper-class `eval`
(line 208, a `SyntaxError` when the pascal-cased name is not a valid
identifier), the computed-properties processing, and the store/proxy
initialization.  On a setup failure the `catch` block deletes the definition
entry and the store entry and re-raises, but the cache created at line 188 is
left in place. -/
def defineResourceObj (ds : DSState) (o : DefObj) :
    DSState × Except DSError Resource :=
  match o.name with
  | .str nm =>
      if badIdAttribute o then
        (ds, .error (.IA (errorPfx ++ "definition.idAttribute: Must be a string!")))
      else if badEndpoint o then
        (ds, .error (.IA (errorPfx ++ "definition.endpoint: Must be a string!")))
      else if (lookupA ds.store nm).isSome then
        (ds, .error (.R (errorPfx ++ nm ++ " is already registered!")))
      else
        let res0 := mkResource ds.defaults o nm
        let cacheKey := "DS." ++ nm
        let caches1 := putA ds.caches cacheKey (mkCacheConfig o nm)
        if validClassName (pascalCase nm) = false then
          ({ ds with
              definitions := eraseKeyA ds.definitions nm
              store := eraseKeyA ds.store nm
              caches := caches1 }, .error .syntaxError)
        else
          match processComputed o.computed with
          | .error e =>
              ({ ds with
                  definitions := eraseKeyA ds.definitions nm
                  store := eraseKeyA ds.store nm
                  caches := caches1 }, .error e)
          | .ok comp =>
              let res := { res0 with computed := comp }
              ({ ds with
                  definitions := putA ds.definitions nm res
                  store := putA ds.store nm { index := cacheKey }
                  caches := caches1 }, .ok res)
  | _ => (ds, .error (.IA (errorPfx ++ "definition.name: Must be a string!")))

/-- `DS.defineResource(definition)` (lines 105-287): a string input has all
whitespace stripped and becomes `{ name: stripped }`; a non-object input fails
the `isObject` check. -/
def defineResource (ds : DSState) (input : DefInput) :
    DSState × Except DSError Resource :=
  match input with
  | .str s => defineResourceObj ds { name := .str (stripWhitespace s) }
  | .obj o => defineResourceObj ds o
  | .other => (ds, .error (.IA (errorPfx ++ "definition: Must be an object!")))

/-- The `attrs` argument of `getEndpoint`: either a primitive (a primary key
when it is a number or string) or an object of attributes. -/
inductive Attrs where
  | prim (v : JSVal)
  | obj (fields : List (String × JSVal))
deriving DecidableEq, Repr

/-- The `options` argument of `getEndpoint`; both properties the source reads
are modelled with presence (`none` = absent). -/
structure JSOptions where
  endpoint : Option JSVal := none
  params : Option (List (String × JSVal)) := none
deriving DecidableEq, Repr

/-- JavaScript property-key coercion (`o[k]` stringifies `k`). -/
def jsKeyOf (v : JSVal) : String := jsToString v

/-- The property key actually used by `options.params[parentKey]`: an
undefined `parentKey` is coerced to the string "undefined". -/
def jsPropKey : Option String → String
  | some k => k
  | none => "undefined"

/-- `options.endpoint || this.endpoint` (line 155). -/
def thisEndpointOf (self : Resource) (o : JSOptions) : JSVal :=
  jsOr (o.endpoint.getD .undef) self.endpoint

/-- The `params` object after `options.params = options.params || {}`. -/
def paramsOf (o : JSOptions) : List (String × JSVal) := o.params.getD []

/-- The `item` local of `getEndpoint` (lines 160-162): the already-injected
record looked up by primary key when `attrs` is a number or a string. -/
def itemOf (st : EntityStore) (self : Resource) (attrs : Attrs) :
    Option EntityRecord :=
  match attrs with
  | .prim v => if isNumber v || isString v then DSget st self.name (jsKeyOf v)
               else none
  | .obj _ => none

/-- `attrs[parentKey]` when `attrs` is an object containing the key
(line 163). -/
def attrsKeyVal (attrs : Attrs) (k : String) : Option JSVal :=
  match attrs with
  | .obj fs => lookupA fs k
  | .prim _ => none

/-- `item[parentKey]` when the injected record exists and contains the key
(line 166). -/
def itemKeyVal (st : EntityStore) (self : Resource) (attrs : Attrs)
    (k : String) : Option JSVal :=
  (itemOf st self attrs).bind fun rec => lookupA rec k

/-- The body of one `def.getEndpoint(attrs, options)` activation (lines
150-178), with the recursive call on the parent definition abstracted as
`recur`.  The `options` object is mutated in place by the source
(`delete options.endpoint`, parameter deletion, and the mutations of
recursive calls are visible to the caller), so the model threads it through
and returns the final object alongside the computed endpoint. -/
def getEndpointAux
    (recur : Resource → Attrs → Option JSOptions → Except DSError (JSVal × JSOptions))
    (defs : List (String × Resource)) (st : EntityStore) (self : Resource)
    (attrs : Attrs) (o0 : JSOptions) : Except DSError (JSVal × JSOptions) :=
  let thisEp := thisEndpointOf self o0
  let params0 := paramsOf o0
  let o2 : JSOptions := { endpoint := none, params := some params0 }
  let step : Except DSError (Option String × JSOptions) :=
    match self.parent, self.parentKey with
    | some p, some k =>
        if p ≠ "" ∧ k ≠ "" then
          match lookupA defs p with
          | some pdef =>
              if lookupA params0 k = some (.boolV false) then .ok (none, o2)
              else
                match attrsKeyVal attrs k with
                | some v =>
                    (match recur pdef attrs
                        (some { endpoint := none
                                params := some (eraseKeyA params0 k) }) with
                     | .error e => .error e
                     | .ok r => .ok (some (makePath [r.1, v, thisEp]), r.2))
                | none =>
                    match itemKeyVal st self attrs k with
                    | some v =>
                        (match recur pdef attrs
                            (some { endpoint := none
                                    params := some (eraseKeyA params0 k) }) with
                         | .error e => .error e
                         | .ok r => .ok (some (makePath [r.1, v, thisEp]), r.2))
                    | none =>
                        if truthy ((lookupA params0 k).getD .undef) then
                          (match recur pdef attrs (some o2) with
                           | .error e => .error e
                           | .ok r =>
                               .ok (some (makePath
                                     [r.1, (lookupA (paramsOf r.2) k).getD .undef,
                                      thisEp]),
                                 { endpoint := none
                                   params := some (eraseKeyA (paramsOf r.2) k) }))
                        else .ok (none, o2)
          | none => .ok (none, o2)
        else .ok (none, o2)
    | _, _ => .ok (none, o2)
  match step with
  | .error e => .error e
  | .ok (ep?, oCur) =>
      let pKey := jsPropKey self.parentKey
      let oFin :=
        if lookupA (paramsOf oCur) pKey = some (.boolV false) then
          { oCur with params := some (eraseKeyA (paramsOf oCur) pKey) }
        else oCur
      .ok (jsOr (match ep? with
                 | some s => .str s
                 | none => .undef) thisEp, oFin)

/-- `def.getEndpoint(attrs, options)` (lines 150-178).  `defs` is the live
`definitions` map the closure captures; `st` backs the spec-modelled
`DS.get`; `fuel` bounds the parent recursion (exhaustion models the stack
overflow of a cyclic parent chain).  Calling with `options` absent raises a
`TypeError`, because `options.endpoint` is read before the defaulting
`options = options || {}` runs. -/
def getEndpoint (defs : List (String × Resource)) (st : EntityStore) :
    Nat → Resource → Attrs → Option JSOptions →
    Except DSError (JSVal × JSOptions)
  | 0, _, _, _ => .error .stackOverflow
  | _ + 1, _, _, none => .error .typeError
  | fuel + 1, self, attrs, some o0 =>
      getEndpointAux
        (fun pd a op => getEndpoint defs st fuel pd a op) defs st self attrs o0

/-- The outcome of the cache's `onExpire` handler: the Entity Store after the
ejection, the ejected record, and the invocation of the developer's
`def.onExpire` callback (its argument pair), when one was configured. -/
structure ExpireOutcome where
  store : EntityStore
  ejected : Option EntityRecord
  callbackCall : Option (String × Option EntityRecord)
deriving DecidableEq, Repr

/-- The `onExpire` closure handed to `DS.cacheFactory` (lines 193-198): eject
the expired key's record from the Entity Store, then invoke the definition's
own `onExpire` callback, when it is a function, with the key and the ejected
record. -/
def cacheOnExpire (res : Resource) (st : EntityStore) (id : String) :
    ExpireOutcome :=
  let r := DSeject st res.name id
  { store := r.1
    ejected := r.2
    callbackCall :=
      if isFunction (res.onExpire.getD .undef) then some (id, r.2) else none }

/-- The `methodsToProxy` list (lines 15-42). -/
def methodsToProxy : List String :=
  ["bindAll", "bindOne", "changes", "create", "createInstance", "destroy",
   "destroyAll", "eject", "ejectAll", "filter", "find", "findAll", "get",
   "hasChanges", "inject", "lastModified", "lastSaved", "link", "linkAll",
   "linkInverse", "loadRelations", "previous", "refresh", "save", "update",
   "updateAll"]

/-- An abstract datastore engine: the result of `DS[name].apply(DS, args)` as
a function of the method name and the argument list. -/
abbrev DSEngine := String → List JSVal → JSVal

/-- `args.splice(n, 0, x)`: insert `x` at index `n`, clamped to the end of the
list when `n` exceeds its length. -/
def spliceInsert {α : Type} : Nat → α → List α → List α
  | 0, x, l => x :: l
  | _ + 1, x, [] => [x]
  | n + 1, x, a :: l => a :: spliceInsert n x l

/-- The proxy closure built for one method name (lines 264-278): `bindOne` and
`bindAll` splice the resource name in at index 2, every other method unshifts
it. -/
def proxiedCall (engine : DSEngine) (defName m : String)
    (args : List JSVal) : JSVal :=
  if m = "bindOne" ∨ m = "bindAll" then
    engine m (spliceInsert 2 (.str defName) args)
  else
    engine m (.str defName :: args)

/-- Per the spec's words, for comparison with `proxiedCall`: forwarding calls
the engine with the resource name prepended to the arguments, except that
`bindOne` and `bindAll` receive it as the third argument instead. -/
def specForwardArgs (defName m : String) (args : List JSVal) : List JSVal :=
  if m = "bindOne" ∨ m = "bindAll" then
    args.take 2 ++ .str defName :: args.drop 2
  else
    .str defName :: args

/-! Helper lemmas about the association-list operations. -/

theorem lookupA_putA_self {α : Type} (l : List (String × α)) (k : String) (v : α) :
    lookupA (putA l k v) k = some v := by
  induction l with
  | nil => simp [putA, lookupA]
  | cons hd tl ih =>
      by_cases h : hd.1 = k
      · simp [putA, lookupA, h]
      · simp [putA, lookupA, h, ih]

theorem lookupA_eraseKeyA_self {α : Type} (l : List (String × α)) (k : String) :
    lookupA (eraseKeyA l k) k = none := by
  induction l with
  | nil => simp [eraseKeyA, lookupA]
  | cons hd tl ih =>
      by_cases h : hd.1 = k
      · simp [eraseKeyA, h, ih]
      · simp [eraseKeyA, lookupA, h, ih]

theorem makePath_three_ne (a b c : JSVal) : makePath [a, b, c] ≠ "" := by
  intro h
  have h1 : makePath [a, b, c] = jsToString a ++ "/" ++ (jsToString b ++ "/" ++ jsToString c) := rfl
  rw [h1] at h
  have h2 := congrArg String.data h
  simp [String.data_append] at h2

/-- Claim C10: `getEndpoint` is not total in its `options` argument: called
without an options object it raises a `TypeError`, because `options.endpoint`
is read before the internal `options = options || {}` defaulting runs, so
callers must always pass an options object. -/
theorem getEndpoint_requires_options (defs : List (String × Resource))
    (st : EntityStore) (fuel : Nat) (self : Resource) (attrs : Attrs) :
    getEndpoint defs st (fuel + 1) self attrs none = .error .typeError := rfl

theorem spliceInsert_two {α : Type} (x : α) (l : List α) :
    spliceInsert 2 x l = l.take 2 ++ x :: l.drop 2 := by
  match l with
  | [] => rfl
  | [_] => rfl
  | _ :: _ :: _ => rfl

/-- Claim C6: for every registered resource definition, every proxied
store-level verb in `methodsToProxy`, and every argument list, the proxy
returns the engine's result with the resource name prepended to the
arguments, except for `bindOne` and `bindAll` where the name is inserted as
the third argument instead. -/
theorem proxiedCall_forwards (engine : DSEngine) (defName m : String)
    (args : List JSVal) (_hm : m ∈ methodsToProxy) :
    proxiedCall engine defName m args = engine m (specForwardArgs defName m args) := by
  by_cases h : m = "bindOne" ∨ m = "bindAll" <;>
    simp [proxiedCall, specForwardArgs, h, spliceInsert_two]

/-- Witness for C6: a concrete engine, the `bindOne` verb and a one-element
argument list. -/
theorem proxiedCall_forwards_witness :
    "bindOne" ∈ methodsToProxy ∧
    proxiedCall (fun m args => .str (m ++ ":" ++ makePath args)) "user" "bindOne"
        [.num 7] =
      (fun m args => JSVal.str (m ++ ":" ++ makePath args)) "bindOne"
        (specForwardArgs "user" "bindOne" [.num 7]) :=
  ⟨by decide,
   proxiedCall_forwards (fun m args => .str (m ++ ":" ++ makePath args))
     "user" "bindOne" [.num 7] (by decide)⟩

/-- Claim C5: when the cache expires an entry for a key, the expiry handler
ejects the record with that key from the resource's Entity Store and then, if
the definition supplies an `onExpire` callback, invokes it with the key and
the ejected record; afterwards `get` on that key returns nothing, the same as
for a never-inserted key. -/
theorem cacheOnExpire_syncs (res : Resource) (st : EntityStore) (id : String) :
    DSget (cacheOnExpire res st id).store res.name id = none ∧
    (isFunction (res.onExpire.getD .undef) = true →
      (cacheOnExpire res st id).callbackCall =
        some (id, (cacheOnExpire res st id).ejected)) := by
  constructor
  · show DSget (DSeject st res.name id).1 res.name id = none
    unfold DSeject
    cases h : lookupA st res.name with
    | none => simp [DSget, h]
    | some col => simp [DSget, lookupA_putA_self, lookupA_eraseKeyA_self]
  · intro h
    simp [cacheOnExpire, h]

/-- Witness for C5: a store holding one record for key "1" with an `onExpire`
callback configured. -/
theorem cacheOnExpire_syncs_witness :
    DSget (cacheOnExpire { name := "user", onExpire := some (.func "function(id,item)") }
        [("user", [("1", [("id", .num 1)])])] "1").store "user" "1" = none ∧
    (cacheOnExpire { name := "user", onExpire := some (.func "function(id,item)") }
        [("user", [("1", [("id", .num 1)])])] "1").callbackCall =
      some ("1", some [("id", .num 1)]) := by
  have h := cacheOnExpire_syncs
    { name := "user", onExpire := some (.func "function(id,item)") }
    [("user", [("1", [("id", .num 1)])])] "1"
  exact ⟨h.1, by rw [h.2 (by decide)]; decide⟩

/-- Whether an `Except` result is a success. -/
def isOkE {ε α : Type} : Except ε α → Bool
  | .ok _ => true
  | .error _ => false

deriving instance DecidableEq for Except

/-- Counterexample for C3: an empty-string name is not rejected by
validation.  Line 118 only checks `isString(definition.name)`, which holds
for `""`, so the empty name enters the `try` block; registration then fails —
but with the `SyntaxError` of `eval('function () {}')` at line 208
(`pascalCase("") = ""`), not with `InvalidDefinition`, and only after the
cache was created, so the state IS changed (the leaked "DS." cache remains),
contrary to both halves of the claim. -/
theorem defineResource_accepts_empty_name :
    (defineResource {} (.obj { name := .str "" })).2 = .error .syntaxError ∧
    (∀ msg, DSError.syntaxError ≠ .IA msg) ∧
    (lookupA (defineResource {} (.obj { name := .str "" })).1.caches "DS.").isSome
      = true ∧
    (defineResource {} (.obj { name := .str "" })).1 ≠ ({} : DSState) := by
  refine ⟨rfl, fun msg => by simp, by decide, by decide⟩

/-- Claim C3 (amended): a non-string non-object input, a non-string name, a
truthy non-string `idAttribute`, or a truthy non-string `endpoint` fails with
`InvalidDefinition` (`IllegalArgumentError`) leaving the state unchanged, in
that checking order; a string input has all whitespace stripped and is then
treated as an object whose name is the stripped string.  (An empty-string
name — and any falsy `idAttribute`/`endpoint` value — passes this validation;
the empty name instead fails later, inside setup, with the `SyntaxError` of
the class `eval`, after the cache was already created.) -/
theorem defineResource_validation (ds : DSState) (o : DefObj) (s : String) :
    defineResource ds .other =
      (ds, .error (.IA (errorPfx ++ "definition: Must be an object!")))
  ∧ (isString o.name = false →
      defineResource ds (.obj o) =
        (ds, .error (.IA (errorPfx ++ "definition.name: Must be a string!"))))
  ∧ (isString o.name = true → badIdAttribute o = true →
      defineResource ds (.obj o) =
        (ds, .error (.IA (errorPfx ++ "definition.idAttribute: Must be a string!"))))
  ∧ (isString o.name = true → badIdAttribute o = false → badEndpoint o = true →
      defineResource ds (.obj o) =
        (ds, .error (.IA (errorPfx ++ "definition.endpoint: Must be a string!"))))
  ∧ defineResource ds (.str s) =
      defineResource ds (.obj { name := .str (stripWhitespace s) }) := by
  refine ⟨rfl, ?_, ?_, ?_, rfl⟩
  · intro h
    cases hn : o.name <;> simp_all [isString, defineResource, defineResourceObj]
  · intro h hid
    cases hn : o.name <;> simp_all [isString, defineResource, defineResourceObj]
  · intro h hid hep
    cases hn : o.name <;> simp_all [isString, defineResource, defineResourceObj]

/-- Witness for C3: a numeric name is rejected with the name error and the
state is untouched. -/
theorem defineResource_validation_witness :
    isString (JSVal.num 3) = false ∧
    defineResource {} (.obj { name := .num 3 }) =
      ({}, .error (.IA (errorPfx ++ "definition.name: Must be a string!"))) :=
  ⟨by decide,
   (defineResource_validation {} { name := .num 3 } "").2.1 (by decide)⟩

/-- Characterization of a successful `defineResourceObj` run: the input
passed all validation, the computed-field processing succeeded, and the
result state gained the definition, the store entry and the cache. -/
theorem defineResourceObj_ok (ds : DSState) (o : DefObj) (ds' : DSState)
    (res : Resource) (h : defineResourceObj ds o = (ds', .ok res)) :
    ∃ nm comp, o.name = .str nm ∧
      badIdAttribute o = false ∧ badEndpoint o = false ∧
      (lookupA ds.store nm).isSome = false ∧
      validClassName (pascalCase nm) = true ∧
      processComputed o.computed = .ok comp ∧
      res = { mkResource ds.defaults o nm with computed := comp } ∧
      ds' = { ds with
                definitions := putA ds.definitions nm res
                store := putA ds.store nm { index := "DS." ++ nm }
                caches := putA ds.caches ("DS." ++ nm) (mkCacheConfig o nm) } := by
  unfold defineResourceObj at h
  split at h
  · rename_i nm hn
    refine ⟨nm, ?_⟩
    split at h
    · simp at h
    · split at h
      · simp at h
      · split at h
        · simp at h
        · rename_i hid hep hst
          split at h
          · simp at h
          · rename_i hv
            split at h
            · simp at h
            · rename_i comp hc
              simp only [Prod.mk.injEq, Except.ok.injEq] at h
              obtain ⟨hds, hres⟩ := h
              cases hres
              exact ⟨comp, hn, by simp_all, by simp_all, by simp_all,
                by simp_all, hc, rfl, hds.symm⟩
  · simp at h

/-- Claim C4: registration succeeds at most once per name.  A second
`defineResource` call naming a resource whose store entry exists fails with
`AlreadyRegistered` (`RuntimeError`) before any setup, leaving the state —
and hence the first registration's definition, cache and store entry —
unchanged; and every successful registration leaves a store entry under the
resource's name, so a later call with that name must fail. -/
theorem defineResource_already_registered :
    (∀ (ds : DSState) (o : DefObj) (nm : String), o.name = .str nm →
      badIdAttribute o = false → badEndpoint o = false →
      (lookupA ds.store nm).isSome = true →
      defineResource ds (.obj o) =
        (ds, .error (.R (errorPfx ++ nm ++ " is already registered!"))))
  ∧ (∀ (ds : DSState) (input : DefInput) (ds' : DSState) (res : Resource),
      defineResource ds input = (ds', .ok res) →
      (lookupA ds'.store res.name).isSome = true) := by
  constructor
  · intro ds o nm hn hid hep hst
    simp [defineResource, defineResourceObj, hn, hid, hep, hst]
  · intro ds input ds' res h
    have hobj : ∃ o, defineResourceObj ds o = (ds', .ok res) := by
      cases input with
      | str s => simp only [defineResource] at h; exact ⟨_, h⟩
      | obj o => simp only [defineResource] at h; exact ⟨o, h⟩
      | other => simp [defineResource] at h
    obtain ⟨o, ho⟩ := hobj
    obtain ⟨nm, comp, _, _, _, _, _, _, hres, hds⟩ := defineResourceObj_ok ds o ds' res ho
    have hname : res.name = nm := by rw [hres]; simp [mkResource]
    rw [hds, hname]
    simp [lookupA_putA_self]

/-- Witness for C4: registering "user" twice; the second call returns the
`AlreadyRegistered` error and the state of the first registration intact. -/
theorem defineResource_already_registered_witness :
    ({ name := .str "user" } : DefObj).name = .str "user" ∧
    (lookupA (defineResource {} (.obj { name := .str "user" })).1.store "user").isSome = true ∧
    defineResource (defineResource {} (.obj { name := .str "user" })).1
        (.obj { name := .str "user" }) =
      ((defineResource {} (.obj { name := .str "user" })).1,
       .error (.R (errorPfx ++ "user" ++ " is already registered!"))) := by
  refine ⟨rfl, by decide, ?_⟩
  exact defineResource_already_registered.1
    (defineResource {} (.obj { name := .str "user" })).1
    { name := .str "user" } "user" rfl (by decide) (by decide) (by decide)

/-- A definition object whose setup fails after the cache has been created:
the computed entry holds a numeric dependency, so the registration-time
`val.trim()` raises a `TypeError`. -/
def c1obj : DefObj :=
  { name := .str "user"
    computed := some [("x", .arr [.num 5, .func "function(a,b)"])] }

/-- The failing registration input built from `c1obj`. -/
def c1input : DefInput := .obj c1obj

/-- Counterexample for C1: when setup fails after input validation, the
`catch` block deletes the definition entry and the store entry and re-raises,
but it does not destroy the cache created by `DS.cacheFactory`, so the cache
collection is not "exactly as it was before the register call" as the claim
requires. -/
theorem defineResource_cache_survives_failure :
    (defineResource {} c1input).2 = .error .typeError ∧
    (defineResource {} c1input).1.definitions = ({} : DSState).definitions ∧
    (defineResource {} c1input).1.store = ({} : DSState).store ∧
    (defineResource {} c1input).1.caches ≠ ({} : DSState).caches :=
  ⟨rfl, rfl, rfl, by decide⟩

/-- Claim C1 (amended): if registration fails at any point after input
validation — whether at the wrapper-class `eval` (an invalid pascal-cased
name) or during the computed-properties processing — the definition entry and
the Entity Store entry under that name are removed (other entries untouched)
and the original setup error is re-raised — but the cache created during
setup remains registered under `"DS." + name`. -/
theorem defineResource_rollback (ds : DSState) (o : DefObj) (nm : String)
    (e : DSError) (hn : o.name = .str nm)
    (hid : badIdAttribute o = false) (hep : badEndpoint o = false)
    (hst : (lookupA ds.store nm).isSome = false)
    (hfail : (defineResource ds (.obj o)).2 = .error e) :
    (validClassName (pascalCase nm) = true →
      processComputed o.computed = .error e) ∧
    (validClassName (pascalCase nm) = false → e = .syntaxError) ∧
    (defineResource ds (.obj o)).1 =
      { ds with
          definitions := eraseKeyA ds.definitions nm
          store := eraseKeyA ds.store nm
          caches := putA ds.caches ("DS." ++ nm) (mkCacheConfig o nm) } := by
  by_cases hv : validClassName (pascalCase nm) = true
  · cases hc : processComputed o.computed with
    | error e' =>
        have hrun : defineResource ds (.obj o) =
            ({ ds with
                definitions := eraseKeyA ds.definitions nm
                store := eraseKeyA ds.store nm
                caches := putA ds.caches ("DS." ++ nm) (mkCacheConfig o nm) },
             .error e') := by
          simp [defineResource, defineResourceObj, hn, hid, hep, hst, hv, hc]
        rw [hrun] at hfail
        simp only [Except.error.injEq] at hfail
        subst hfail
        exact ⟨fun _ => rfl, fun hvf => by rw [hvf] at hv; simp at hv,
          by rw [hrun]⟩
    | ok comp =>
        have hok : (defineResource ds (.obj o)).2 =
            .ok { mkResource ds.defaults o nm with computed := comp } := by
          simp [defineResource, defineResourceObj, hn, hid, hep, hst, hv, hc]
        rw [hok] at hfail
        simp at hfail
  · have hv' : validClassName (pascalCase nm) = false := by
      simpa using hv
    have hrun : defineResource ds (.obj o) =
        ({ ds with
            definitions := eraseKeyA ds.definitions nm
            store := eraseKeyA ds.store nm
            caches := putA ds.caches ("DS." ++ nm) (mkCacheConfig o nm) },
         .error .syntaxError) := by
      simp [defineResource, defineResourceObj, hn, hid, hep, hst, hv']
    rw [hrun] at hfail
    simp only [Except.error.injEq] at hfail
    subst hfail
    exact ⟨fun hvt => by rw [hvt] at hv'; simp at hv', fun _ => rfl,
      by rw [hrun]⟩

/-- Witness for C1: the failing registration of `c1input` from an empty state;
the hypotheses of `defineResource_rollback` hold there concretely. -/
theorem defineResource_rollback_witness :
    (lookupA ({} : DSState).store "user").isSome = false ∧
    processComputed (some [("x", .arr [.num 5, .func "function(a,b)"])]) =
      .error .typeError ∧
    (defineResource {} c1input).1 =
      { ({} : DSState) with
          definitions := eraseKeyA ({} : DSState).definitions "user"
          store := eraseKeyA ({} : DSState).store "user"
          caches := putA ({} : DSState).caches ("DS." ++ "user")
            (mkCacheConfig c1obj "user") } := by
  have h := defineResource_rollback {} c1obj "user" .typeError rfl
    (by decide) (by decide) (by decide) rfl
  exact ⟨by decide, h.1 (by decide), h.2.2⟩

/-- The inner relation-array fold of `resolveParent` is the fold over that
entry's flagged relations. -/
theorem resolveParent_inner (m : String) (rels : List RelationDecl)
    (acc : Option String × Option String) :
    rels.foldl
        (fun acc2 rel => if truthy rel.parent then (some m, rel.localKey) else acc2)
        acc =
      (rels.filterMap
          (fun r => if truthy r.parent then some (m, r.localKey) else none)).foldl
        (fun _ q => (some q.1, q.2)) acc := by
  induction rels generalizing acc with
  | nil => rfl
  | cons r rest ih =>
      by_cases h : truthy r.parent <;> simp [List.filterMap_cons, h, ih]

/-- A fold that ignores its accumulator yields the last element (or the
accumulator when the list is empty). -/
theorem foldl_const_last (l : List (String × Option String))
    (acc : Option String × Option String) :
    l.foldl (fun _ q => (some q.1, q.2)) acc =
      match l.getLast? with
      | some q => (some q.1, q.2)
      | none => acc := by
  induction l generalizing acc with
  | nil => rfl
  | cons q rest ih =>
      cases rest with
      | nil => simp [ih]
      | cons q2 rest2 =>
          rw [List.foldl_cons, ih, List.getLast?_cons_cons]
          cases h : (q2 :: rest2).getLast? with
          | some q3 => rfl
          | none =>
              have hs : ((q2 :: rest2).getLast?).isSome = true :=
                List.getLast?_isSome.mpr (by simp)
              rw [h] at hs
              simp at hs

/-- `resolveParent` retains the last parent-flagged relation encountered. -/
theorem resolveParent_eq_last (bt : List (String × BelongsToDecl)) :
    resolveParent (some { belongsTo := some bt }) =
      match (parentFlags bt).getLast? with
      | some q => (some q.1, q.2)
      | none => (none, none) := by
  show bt.foldl _ (none, none) = _
  have step : ∀ (acc : Option String × Option String),
      bt.foldl
          (fun acc p =>
            (toRelArray p.2).foldl
              (fun acc2 rel =>
                if truthy rel.parent then (some p.1, rel.localKey) else acc2)
              acc)
          acc =
        (parentFlags bt).foldl (fun _ q => (some q.1, q.2)) acc := by
    induction bt with
    | nil => intro acc; rfl
    | cons p rest ih =>
        intro acc
        rw [List.foldl_cons, ih, resolveParent_inner]
        simp [parentFlags, List.flatMap_cons, List.foldl_append]
  rw [step, foldl_const_last]

/-- Claim C7: when a registered resource's `belongsTo` declarations include a
relation flagged as `parent`, registration sets the resource's `parent` to
that related resource's name and `parentKey` to that relation's `localKey`;
with several flagged relations, the last processed one is retained (each
resource holds exactly one endpoint-hierarchy parent). -/
theorem defineResource_parent_resolution (ds : DSState) (o : DefObj)
    (ds' : DSState) (res : Resource) (bt : List (String × BelongsToDecl))
    (m : String) (k : Option String)
    (h : defineResource ds (.obj o) = (ds', .ok res))
    (hr : o.relations = some { belongsTo := some bt })
    (hl : (parentFlags bt).getLast? = some (m, k)) :
    res.parent = some m ∧ res.parentKey = k := by
  have ho : defineResourceObj ds o = (ds', .ok res) := by
    simpa [defineResource] using h
  obtain ⟨nm, comp, _, _, _, _, _, _, hres, _⟩ :=
    defineResourceObj_ok ds o ds' res ho
  have : res.parent = (resolveParent o.relations).1 ∧
      res.parentKey = (resolveParent o.relations).2 := by
    rw [hres]; exact ⟨rfl, rfl⟩
  rw [hr, resolveParent_eq_last, hl] at this
  exact this

/-- The `belongsTo` map of the C7 witness: two parent-flagged relations. -/
def c7bt : List (String × BelongsToDecl) :=
  [("team", .single { parent := .boolV true, localKey := some "teamId" }),
   ("organization", .single
      { parent := .boolV true, localKey := some "organizationId" })]

/-- The definition object of the C7 witness. -/
def c7obj : DefObj :=
  { name := .str "user", relations := some { belongsTo := some c7bt } }

/-- The resource produced by registering `c7obj` from an empty state. -/
def c7res : Resource :=
  { name := "user", idAttribute := .str "id", endpoint := .str "user"
    parent := some "organization", parentKey := some "organizationId"
    cls := "User" }

/-- Witness for C7: of the two parent-flagged `belongsTo` relations of
`c7obj`, the later one ("organization", localKey "organizationId") wins. -/
theorem defineResource_parent_resolution_witness :
    (parentFlags c7bt).getLast? = some ("organization", some "organizationId") ∧
    c7res.parent = some "organization" ∧ c7res.parentKey = some "organizationId" := by
  refine ⟨by decide, ?_⟩
  exact defineResource_parent_resolution {} c7obj
    (defineResource {} (.obj c7obj)).1 c7res c7bt
    "organization" (some "organizationId") (by decide) rfl (by decide)

/-- Claim C9: for every successful registration, the resulting definition's
endpoint equals the endpoint given in the input when one is given and the
resource's name otherwise; likewise `idAttribute` equals the given value when
one is given and defaults to "id" through the inherited global defaults. -/
theorem defineResource_endpoint_default (ds : DSState) (input : DefInput)
    (ds' : DSState) (res : Resource)
    (hdef : ds.defaults.idAttribute = .str "id")
    (h : defineResource ds input = (ds', .ok res)) :
    (∀ o, input = .obj o →
      (∀ v, o.endpoint = some v → res.endpoint = v) ∧
      (o.endpoint = none → res.endpoint = .str res.name) ∧
      (∀ v, o.idAttribute = some v → res.idAttribute = v) ∧
      (o.idAttribute = none → res.idAttribute = .str "id")) ∧
    (∀ s, input = .str s →
      res.name = stripWhitespace s ∧
      res.endpoint = .str (stripWhitespace s) ∧
      res.idAttribute = .str "id") := by
  constructor
  · rintro o rfl
    have ho : defineResourceObj ds o = (ds', .ok res) := by
      simpa [defineResource] using h
    obtain ⟨nm, comp, hn, _, _, _, _, _, hres, _⟩ :=
      defineResourceObj_ok ds o ds' res ho
    refine ⟨?_, ?_, ?_, ?_⟩
    · intro v hv; rw [hres]; simp [mkResource, hv]
    · intro hv; rw [hres]; simp [mkResource, hv]
    · intro v hv; rw [hres]; simp [mkResource, hv]
    · intro hv; rw [hres]; simp [mkResource, hv, hdef]
  · rintro s rfl
    have ho : defineResourceObj ds { name := .str (stripWhitespace s) } =
        (ds', .ok res) := by
      simpa [defineResource] using h
    obtain ⟨nm, comp, hn, _, _, _, _, _, hres, _⟩ :=
      defineResourceObj_ok ds _ ds' res ho
    have hnm : nm = stripWhitespace s := by
      simpa using hn.symm
    subst hnm
    rw [hres]
    simp [mkResource, hdef]

/-- Witness for C9: registering the name "user" with no explicit endpoint or
idAttribute yields endpoint "user" and idAttribute "id"; the default-state
hypotheses hold concretely. -/
theorem defineResource_endpoint_default_witness :
    ({} : DSState).defaults.idAttribute = .str "id" ∧
    (defineResource {} (.str "user")).2 = .ok
      { name := "user", idAttribute := .str "id", endpoint := .str "user"
        cls := "User" } ∧
    ({ name := "user", idAttribute := .str "id", endpoint := .str "user"
       cls := "User" } : Resource).endpoint = .str (stripWhitespace "user") := by
  refine ⟨rfl, by decide, ?_⟩
  have h := defineResource_endpoint_default {} (.str "user")
    (defineResource {} (.str "user")).1
    { name := "user", idAttribute := .str "id", endpoint := .str "user"
      cls := "User" }
    rfl (by decide)
  exact ((h.2 "user" rfl).2).1

/-- The definition object of the C8 counterexample: a computed field whose
declared dependency name carries a trailing space. -/
def c8obj : DefObj :=
  { name := .str "person"
    computed := some
      [("fullName", .arr [.str "first ", .str "last", .func "function(first,last)"])] }

/-- The resource produced by registering `c8obj` from an empty state. -/
def c8res : Resource :=
  { name := "person", idAttribute := .str "id", endpoint := .str "person"
    cls := "Person"
    computed := some
      [("fullName",
        { elems := [.str "first ", .str "last", .func "function(first,last)"]
          deps := ["first", "last"] })] }

/-- Counterexample for C8: after registration the computed entry array keeps
the dependency names exactly as declared — here the untrimmed "first " — while
the trimmed non-empty names live only on the entry's `deps` property, so the
entry's preceding elements are not "the trimmed, non-empty dependency field
names" as the claim states. -/
theorem computed_entry_keeps_raw_deps :
    (defineResource {} (.obj c8obj)).2 = .ok c8res ∧
    c8res.computed = some
      [("fullName",
        { elems := [.str "first ", .str "last", .func "function(first,last)"]
          deps := ["first", "last"] })] ∧
    [JSVal.str "first ", JSVal.str "last"] ≠
      (["first", "last"].map JSVal.str) := by
  refine ⟨by decide, rfl, by decide⟩

/-- Trimming a list of string dependencies entry-wise. -/
theorem trimAll_strs (dl : List String) :
    trimAll (dl.map JSVal.str) = .ok (dl.map jsTrim) := by
  induction dl with
  | nil => rfl
  | cons d rest ih => simp [trimAll, trimDep, ih]

/-- Claim C8 (amended): dependency lists are fixed at registration.  For a
successful registration the computed entries are exactly the processed
declarations; an entry declared as an array (of other than one element) keeps
its declared elements unchanged — the last being the derivation function, the
preceding ones the dependency names as written — while the trimmed non-empty
dependency names in declared order are stored on the entry's `deps` property;
an entry declared as a bare function gets the names extracted from the
function source's parameter list prepended to the entry, with `deps` again
the trimmed non-empty ones. -/
theorem computed_registration (ds : DSState) (o : DefObj) (ds' : DSState)
    (res : Resource) (es : List JSVal) (dl : List String) (src cap : String) :
    (defineResource ds (.obj o) = (ds', .ok res) →
      processComputed o.computed = .ok res.computed)
  ∧ (es.length ≠ 1 → es.dropLast = dl.map JSVal.str →
      processComputedField (.arr es) = .ok
        { elems := es
          deps := (dl.map jsTrim).filter (fun d => d ≠ "") })
  ∧ (jsFnCapture src = some cap →
      processComputedField (.fn src) = .ok
        { elems := (jsSplitComma cap).map JSVal.str ++ [.func src]
          deps := ((jsSplitComma cap).map jsTrim).filter (fun d => d ≠ "") }) := by
  refine ⟨?_, ?_, ?_⟩
  · intro h
    have ho : defineResourceObj ds o = (ds', .ok res) := by
      simpa [defineResource] using h
    obtain ⟨nm, comp, _, _, _, _, _, hc, hres, _⟩ :=
      defineResourceObj_ok ds o ds' res ho
    rw [hres]
    exact hc
  · intro hlen hdrop
    match es, hlen, hdrop with
    | [], _, hdrop =>
        have hdl : dl = [] := by
          cases dl with
          | nil => rfl
          | cons d rest => simp at hdrop
        subst hdl
        rfl
    | e1 :: e2 :: rest, _, hdrop =>
        show processElems (e1 :: e2 :: rest) = _
        unfold processElems
        rw [hdrop, trimAll_strs]
  · intro hcap
    show processElems [.func src] = _
    unfold processElems
    simp only [jsToString]
    rw [hcap]
    have hdrop : ((jsSplitComma cap).map JSVal.str ++ [JSVal.func src]).dropLast =
        (jsSplitComma cap).map JSVal.str := by
      simp
    simp only []
    rw [hdrop, trimAll_strs]

/-- Witness for C8: a bare-function declaration whose source is
"function (a, b) x"; the extracted raw names are "a" and " b", the stored
`deps` their trimmed forms. -/
theorem computed_registration_witness :
    jsFnCapture "function (a, b) x" = some "a, b" ∧
    processComputedField (.fn "function (a, b) x") = .ok
      { elems := [.str "a", .str " b", .func "function (a, b) x"]
        deps := ["a", "b"] } := by
  refine ⟨by decide, ?_⟩
  have h := (computed_registration {} {} {}
    { name := "x" } [] [] "function (a, b) x" "a, b").2.2 (by decide)
  exact h.trans (by decide)

/-- Unfolding of `getEndpoint` at positive fuel with an options object. -/
theorem getEndpoint_succ (defs : List (String × Resource)) (st : EntityStore)
    (fuel : Nat) (self : Resource) (attrs : Attrs) (o0 : JSOptions) :
    getEndpoint defs st (fuel + 1) self attrs (some o0) =
      getEndpointAux (fun pd a op => getEndpoint defs st fuel pd a op)
        defs st self attrs o0 := rfl

/-- A composed three-segment path is never the empty string, hence truthy. -/
theorem jsOr_makePath (a b c t : JSVal) :
    jsOr (.str (makePath [a, b, c])) t = .str (makePath [a, b, c]) := by
  simp [jsOr, truthy, makePath_three_ne a b c]

/-- `undefined || t` is `t`. -/
theorem jsOr_undef (t : JSVal) : jsOr .undef t = t := by
  simp [jsOr, truthy]

/-- Claim C2: for a resource with a declared (truthy) parent and parent key,
`getEndpoint` composes `parentEndpoint / parentKeyValue / thisEndpoint` —
resolving the parent's endpoint recursively on the mutated options — whenever
the parent is registered and the key value is resolvable: from `attrs` when
it is an object containing the key, else from the already-injected record
looked up by the primary key `attrs`, else from a truthy `options.params`
entry (provided the recursive call leaves that entry in place); it returns
`thisEndpoint` alone when the parent is unregistered or the key is
unresolvable; and passing the parent key as `false` in `options.params`
suppresses composition, yielding the flat `thisEndpoint`. -/
theorem getEndpoint_resolution (defs : List (String × Resource))
    (st : EntityStore) (fuel : Nat) (self : Resource) (attrs : Attrs)
    (o : JSOptions) (p k : String) (pdef : Resource) (pep : JSVal)
    (o4 : JSOptions)
    (hp : self.parent = some p) (hk : self.parentKey = some k)
    (hp' : p ≠ "") (hk' : k ≠ "") :
    (lookupA defs p = none →
      ∃ oF, getEndpoint defs st (fuel + 1) self attrs (some o) =
        .ok (thisEndpointOf self o, oF))
  ∧ (lookupA defs p = some pdef →
      lookupA (paramsOf o) k = some (.boolV false) →
      ∃ oF, getEndpoint defs st (fuel + 1) self attrs (some o) =
        .ok (thisEndpointOf self o, oF))
  ∧ (lookupA defs p = some pdef →
      lookupA (paramsOf o) k ≠ some (.boolV false) →
      ∀ v, attrsKeyVal attrs k = some v →
      getEndpoint defs st fuel pdef attrs
          (some { endpoint := none, params := some (eraseKeyA (paramsOf o) k) }) =
        .ok (pep, o4) →
      ∃ oF, getEndpoint defs st (fuel + 1) self attrs (some o) =
        .ok (.str (makePath [pep, v, thisEndpointOf self o]), oF))
  ∧ (lookupA defs p = some pdef →
      lookupA (paramsOf o) k ≠ some (.boolV false) →
      attrsKeyVal attrs k = none →
      ∀ v, itemKeyVal st self attrs k = some v →
      getEndpoint defs st fuel pdef attrs
          (some { endpoint := none, params := some (eraseKeyA (paramsOf o) k) }) =
        .ok (pep, o4) →
      ∃ oF, getEndpoint defs st (fuel + 1) self attrs (some o) =
        .ok (.str (makePath [pep, v, thisEndpointOf self o]), oF))
  ∧ (lookupA defs p = some pdef →
      attrsKeyVal attrs k = none →
      itemKeyVal st self attrs k = none →
      ∀ pv, lookupA (paramsOf o) k = some pv → truthy pv = true →
      getEndpoint defs st fuel pdef attrs
          (some { endpoint := none, params := some (paramsOf o) }) =
        .ok (pep, o4) →
      lookupA (paramsOf o4) k = some pv →
      ∃ oF, getEndpoint defs st (fuel + 1) self attrs (some o) =
        .ok (.str (makePath [pep, pv, thisEndpointOf self o]), oF))
  ∧ (lookupA defs p = some pdef →
      attrsKeyVal attrs k = none →
      itemKeyVal st self attrs k = none →
      truthy ((lookupA (paramsOf o) k).getD .undef) = false →
      lookupA (paramsOf o) k ≠ some (.boolV false) →
      ∃ oF, getEndpoint defs st (fuel + 1) self attrs (some o) =
        .ok (thisEndpointOf self o, oF)) := by
  rw [getEndpoint_succ]
  unfold getEndpointAux
  simp only [hp, hk]
  refine ⟨?_, ?_, ?_, ?_, ?_, ?_⟩
  · intro hreg
    simp only [hreg, if_pos (And.intro hp' hk')]
    exact ⟨_, by rw [jsOr_undef]⟩
  · intro hreg hsup
    simp only [hreg, if_pos (And.intro hp' hk'), if_pos hsup]
    exact ⟨_, by rw [jsOr_undef]⟩
  · intro hreg hsup v hav hrec
    simp only [hreg, if_pos (And.intro hp' hk'), if_neg hsup, hav, hrec]
    exact ⟨_, by rw [jsOr_makePath]⟩
  · intro hreg hsup hav v hiv hrec
    simp only [hreg, if_pos (And.intro hp' hk'), if_neg hsup, hav, hiv, hrec]
    exact ⟨_, by rw [jsOr_makePath]⟩
  · intro hreg hav hiv pv hpv htr hrec hpres
    have hne : ¬(some pv = some (JSVal.boolV false)) := by
      intro hx
      cases hx
      simp [truthy] at htr
    simp only [hreg, if_pos (And.intro hp' hk'), hav, hiv, hpv, if_neg hne,
      Option.getD_some, htr, if_true, hrec, hpres]
    exact ⟨_, by rw [jsOr_makePath]⟩
  · intro hreg hav hiv htr hsup
    simp only [hreg, if_pos (And.intro hp' hk'), if_neg hsup, hav, hiv, htr,
      Bool.false_eq_true, if_false]
    exact ⟨_, by rw [jsOr_undef]⟩

/-- The parent resource of the C2 witness. -/
def c2org : Resource :=
  { name := "organization", endpoint := .str "organizations"
    idAttribute := .str "id" }

/-- The child resource of the C2 witness: its endpoint hierarchy points at
"organization" through the key "organizationId". -/
def c2user : Resource :=
  { name := "user", endpoint := .str "users", idAttribute := .str "id"
    parent := some "organization", parentKey := some "organizationId" }

/-- The definitions map of the C2 witness. -/
def c2defs : List (String × Resource) :=
  [("organization", c2org), ("user", c2user)]

/-- The attrs object of the C2 witness: contains the parent key. -/
def c2attrs : Attrs := .obj [("id", .num 1), ("organizationId", .num 5)]

/-- Witness for C2: with `attrs` containing `organizationId = 5`, the child's
endpoint is the composed path "organizations/5/users". -/
theorem getEndpoint_resolution_witness :
    attrsKeyVal c2attrs "organizationId" = some (.num 5) ∧
    makePath [.str "organizations", .num 5, thisEndpointOf c2user {}] =
      "organizations/5/users" ∧
    ∃ oF, getEndpoint c2defs [] 2 c2user c2attrs (some {}) =
      .ok (.str (makePath [.str "organizations", .num 5,
        thisEndpointOf c2user {}]), oF) := by
  refine ⟨by decide, by decide, ?_⟩
  exact (getEndpoint_resolution c2defs [] 1 c2user c2attrs {} "organization"
    "organizationId" c2org (.str "organizations")
    { endpoint := none, params := some [] } rfl rfl (by decide)
    (by decide)).2.2.1 (by decide) (by decide) (.num 5) (by decide) (by decide)

end AngularData
